import Mathlib

/-!
Verification of the hetionet-example loader and queries.

This file gives a shallow embedding of the repository's core code:

* `src/main.py` — `sanitize_metaedge` and `create_db` (bulk load of node and
  edge TSV records into a Neo4j graph store and a MongoDB mirror store);
* `src/db/graph.py` — `GraphDB.create_node`, `GraphDB.query1` (neighborhood
  query) and `GraphDB.query2` (drug-repurposing query);
* `src/db/document.py` — `DocumentDB.insert_node` (upsert by `_id`).

Store modelling conventions, used throughout:

* The MongoDB collection is a finite association list from `_id` to the
  stored document; `update_one(filter, set, upsert=True)` is modelled by
  `mongoUpsert` (replace if the key is present, append otherwise).
* The Neo4j store is a list of nodes (id, name, kind attributes plus a list
  of structural labels) and a list of directed typed edges
  `(sourceId, relType, targetId)`.  Cypher `MERGE (n { id: $id })` matches
  any node whose `id` property equals the parameter and creates one when
  none exists; `MERGE (s)-[r:T]->(t)` adds the triple only when absent.
* A Cypher query whose text interpolates a structural label (the
  `"... n:" + kind` concatenation in `create_db` and `create_node`) is
  accepted by the store's parser exactly when the label token matches the
  grammar letter (letter|digit|underscore)* — the same grammar that
  `GraphDB.create_node` documents and enforces; otherwise the store raises
  and the Python exception propagates (there is no try/except in the load).
-/

namespace Hetionet

/-- A character kept by `sanitize_metaedge` and allowed after the first
character of a valid label: letters, digits, underscore. -/
def isWordChar (c : Char) : Bool := c.isAlpha || c.isDigit || c = '_'

/-- `main.sanitize_metaedge`: removes all characters that are not letters,
digits, or underscores (`re.sub(r'[^A-Za-z0-9_]', '', metaedge)`). -/
def sanitize_metaedge (s : String) : String := ⟨s.data.filter isWordChar⟩

/-- The strict label grammar `^[A-Za-z][A-Za-z0-9_]*$` checked by
`GraphDB.create_node`: one letter, then letters/digits/underscores. -/
def validKind (s : String) : Bool :=
  match s.data with
  | [] => false
  | c :: rest => c.isAlpha && rest.all isWordChar

/-- One row of the nodes TSV file: columns `id`, `name`, `kind`. -/
structure NodeRow where
  id : String
  name : String
  kind : String
deriving DecidableEq, Repr

/-- One row of the edges TSV file: columns `source`, `target`, `metaedge`. -/
structure EdgeRow where
  source : String
  target : String
  metaedge : String
deriving DecidableEq, Repr

/-- The document stored for a node in the MongoDB mirror (besides `_id`). -/
structure MDoc where
  name : String
  kind : String
deriving DecidableEq, Repr

/-- The MongoDB `nodes` collection: an association list keyed by `_id`. -/
abbrev MongoState := List (String × MDoc)

/-- `DocumentDB.insert_node`: `update_one(id-filter, set-doc, upsert=True)` —
replace the document when the key exists, append it otherwise. -/
def mongoUpsert (s : MongoState) (i : String) (d : MDoc) : MongoState :=
  if s.any (fun p => p.1 = i) then s.map (fun p => if p.1 = i then (i, d) else p)
  else s ++ [(i, d)]

/-- A node of the graph store: `id`, `name`, `kind` properties plus the
structural labels attached to it. -/
structure GNode where
  id : String
  name : String
  kind : String
  labels : List String
deriving DecidableEq, Repr

/-- The graph store: nodes, and directed typed edges
`(sourceId, relType, targetId)`. -/
structure GraphState where
  nodes : List GNode
  edges : List (String × String × String)
deriving DecidableEq, Repr

/-- `SET n:L` on one node: attach label `L` when not already present. -/
def addLabel (n : GNode) (l : String) : GNode :=
  if l ∈ n.labels then n else { n with labels := n.labels ++ [l] }

/-- The `SET n.name = $name, n.kind = $kind, n:kind` clause applied to one
matched node. -/
def setAndLabel (n : GNode) (name kind : String) : GNode :=
  addLabel { n with name := name, kind := kind } kind

/-- `MERGE (n { id: $id }) SET n.name = $name, n.kind = $kind, n:kind`:
update every node whose `id` property matches, or create a fresh one. -/
def mergeSetNode (g : GraphState) (i name kind : String) : GraphState :=
  if g.nodes.any (fun n => n.id = i) then
    { g with nodes := g.nodes.map (fun n => if n.id = i then setAndLabel n name kind else n) }
  else
    { g with nodes := g.nodes ++ [setAndLabel ⟨i, "", "", []⟩ name kind] }

/-- `session.run` of the node-merge query whose text interpolates `kind` as a
label.  Per the store model above, the store accepts the query exactly when
the interpolated label matches the label grammar; otherwise it raises. -/
def runMergeNode (g : GraphState) (i name kind : String) : Except String GraphState :=
  if validKind kind then .ok (mergeSetNode g i name kind)
  else .error ("label parse error near n:" ++ kind)

/-- `GraphDB.create_node`: validate `kind` against the strict grammar, raising
`ValueError` on violation, then run the merge query.  (Note: `create_db` in
`main.py` does not call this; it inlines the merge query unvalidated.) -/
def create_node (g : GraphState) (node_id name kind : String) : Except String GraphState :=
  if validKind kind then
    match runMergeNode g node_id name kind with
    | .ok g2 => .ok g2
    | .error e => .error e
  else .error ("Invalid kind label: " ++ kind)

/-- The Neo4j node-insertion loop of `create_db`: one `runMergeNode` per row,
in order.  An exception stops the loop (there is no try/except around it);
the state reached so far is the committed store state at that point. -/
def graphNodePhase (g : GraphState) : List NodeRow → GraphState × Option String
  | [] => (g, none)
  | r :: rs =>
    match runMergeNode g r.id r.name r.kind with
    | .ok g2 => graphNodePhase g2 rs
    | .error e => (g, some e)

/-- The MongoDB node-insertion loop of `create_db`: upsert every row. -/
def mongoPhase (m : MongoState) (rows : List NodeRow) : MongoState :=
  rows.foldl (fun s r => mongoUpsert s r.id ⟨r.name, r.kind⟩) m

/-- `edge_groups.setdefault(key, []).append(...)`: append the pair to the
group keyed `k`, creating the group at the end on first occurrence
(Python dicts preserve insertion order). -/
def addToGroups (gs : List (String × List (String × String))) (k : String)
    (v : String × String) : List (String × List (String × String)) :=
  if gs.any (fun p => p.1 = k) then gs.map (fun p => if p.1 = k then (p.1, p.2 ++ [v]) else p)
  else gs ++ [(k, [v])]

/-- The grouping loop of `create_db`: group edge rows by `metaedge`, keeping
each group's rows in input order. -/
def edge_groups (edges : List EdgeRow) : List (String × List (String × String)) :=
  edges.foldl (fun gs e => addToGroups gs e.metaedge (e.source, e.target)) []

/-- `batch_size = 1000` in `create_db`. -/
def batch_size : Nat := 1000

/-- The slices `edge_list[i:i+batch_size]` for `i in range(0, len, batch_size)`:
consecutive chunks of at most `batch_size` elements. -/
def batches : List α → List (List α)
  | [] => []
  | x :: xs => (x :: xs).take batch_size :: batches ((x :: xs).drop batch_size)
termination_by l => l.length
decreasing_by
  simp only [List.length_drop, List.length_cons, batch_size]
  omega

/-- One batched edge-merge operation sent to the store: the relation type
interpolated into the query text, and the `$batch` parameter. -/
structure BatchOp where
  relType : String
  batch : List (String × String)
deriving DecidableEq, Repr

/-- The operations issued for one group: the relation type is sanitized once
(`sanitized_metaedge = sanitize_metaedge(metaedge)`), then one operation per
batch, every operation of the group carrying that one sanitized type. -/
def groupOps (me : String) (lst : List (String × String)) : List BatchOp :=
  let sanitized := sanitize_metaedge me
  (batches lst).map (fun b => ⟨sanitized, b⟩)

/-- All batched edge-merge operations of `create_db`, group by group in
grouping order, each group's batches consecutive. -/
def edgePhaseOps (edges : List EdgeRow) : List BatchOp :=
  (edge_groups edges).flatMap (fun p => groupOps p.1 p.2)

/-- One row of the batched merge: `MATCH (s { id: row.source })
MATCH (t { id: row.target }) MERGE (s)-[r:T]->(t)` — when both endpoints
match an existing node, merge the directed typed edge (create it only when
the triple is absent); a row with a missing endpoint matches nothing and is
skipped. -/
def mergeEdgeRow (rel : String) (g : GraphState) (st : String × String) : GraphState :=
  if (g.nodes.any (fun n => n.id = st.1)) && (g.nodes.any (fun n => n.id = st.2)) then
    if (st.1, rel, st.2) ∈ g.edges then g
    else { g with edges := g.edges ++ [(st.1, rel, st.2)] }
  else g

/-- One batched `UNWIND $batch ...` edge-merge operation: the per-row merge
folded over the `$batch` parameter. -/
def applyBatch (g : GraphState) (op : BatchOp) : GraphState :=
  op.batch.foldl (mergeEdgeRow op.relType) g

/-- The ids under which the mirror store holds a document. -/
def mongoKeys (s : MongoState) : List String := s.map Prod.fst

/-- The `id` properties of the graph store's nodes, in store order. -/
def nodeIds (g : GraphState) : List String := g.nodes.map GNode.id

/-- The combined state of both stores. -/
structure SysState where
  mongo : MongoState
  graph : GraphState
deriving DecidableEq, Repr

/-- `main.create_db`: upsert all nodes into MongoDB, then run the Neo4j node
loop (an exception there aborts the rest of the load, edges included), then
issue the batched edge operations. -/
def create_db (st : SysState) (nodes : List NodeRow) (edges : List EdgeRow) :
    SysState × Option String :=
  let m := mongoPhase st.mongo nodes
  match graphNodePhase st.graph nodes with
  | (g, some e) => (⟨m, g⟩, some e)
  | (g, none) => (⟨m, (edgePhaseOps edges).foldl applyBatch g⟩, none)

/-- The record returned by `GraphDB.query1` on success. -/
structure Query1Result where
  disease_name : String
  drug_names : List String
  gene_names : List String
  locations : List String
deriving DecidableEq, Repr

/-- `MATCH (d:Disease {id: $disease_id})`: the first node carrying the
`Disease` label whose `id` property is `did` (`result.single()`). -/
def diseaseNode (g : GraphState) (did : String) : Option GNode :=
  g.nodes.find? (fun n => decide ("Disease" ∈ n.labels ∧ n.id = did))

/-- `OPTIONAL MATCH (d)<-[r:CtD|CpD]-(c:Compound)` with
`collect(DISTINCT c.name)`: deduplicated names of compounds with a `CtD` or
`CpD` edge into `d`. -/
def q1DrugNames (g : GraphState) (d : GNode) : List String :=
  ((g.nodes.filter (fun c => decide ("Compound" ∈ c.labels ∧
      ((c.id, "CtD", d.id) ∈ g.edges ∨ (c.id, "CpD", d.id) ∈ g.edges)))).map GNode.name).dedup

/-- `OPTIONAL MATCH (d)-[r2:DdG]-(g:Gene)` (undirected) with
`collect(DISTINCT g.name)`. -/
def q1GeneNames (g : GraphState) (d : GNode) : List String :=
  ((g.nodes.filter (fun gn => decide ("Gene" ∈ gn.labels ∧
      ((d.id, "DdG", gn.id) ∈ g.edges ∨ (gn.id, "DdG", d.id) ∈ g.edges)))).map GNode.name).dedup

/-- `OPTIONAL MATCH (d)-[r3:DlA]->(l:Anatomy)` with
`collect(DISTINCT l.name)`. -/
def q1Locations (g : GraphState) (d : GNode) : List String :=
  ((g.nodes.filter (fun l => decide ("Anatomy" ∈ l.labels ∧
      (d.id, "DlA", l.id) ∈ g.edges))).map GNode.name).dedup

/-- `GraphDB.query1`: verify that a `Disease` node with the given id exists
(the `count(d) > 0` query); on failure print and return `None`; otherwise run
the main query and build the result record. -/
def query1 (g : GraphState) (disease_id : String) : Option Query1Result :=
  match diseaseNode g disease_id with
  | none => none
  | some d => some ⟨d.name, q1DrugNames g d, q1GeneNames g d, q1Locations g d⟩

/-- The failure taxonomy for a query call.  `notFound` is the typed
`NotFoundError` of the spec (§7); `raw` is an untyped Python exception
escaping the call (for instance subscripting `None`). -/
inductive QueryErr where
  | notFound : QueryErr
  | raw : String → QueryErr
deriving DecidableEq, Repr

/-- An up/down regulation direction tag. -/
inductive Dir where
  | up : Dir
  | down : Dir
deriving DecidableEq, Repr

/-- Rows of `MATCH (d:Disease {id: $disease_id})-[:DlA]->(loc:Anatomy)`:
one `(d, loc)` pair per instantiation. -/
def q2LocRows (g : GraphState) (did : String) : List (GNode × GNode) :=
  (g.nodes.filter (fun d => decide ("Disease" ∈ d.labels ∧ d.id = did))).flatMap fun d =>
    (g.nodes.filter (fun loc => decide ("Anatomy" ∈ loc.labels ∧
        (d.id, "DlA", loc.id) ∈ g.edges))).map fun loc => (d, loc)

/-- The relationship instances of `(loc)-[r1:AuG|AdG]-(g:Gene)` (undirected
pattern): one `type(r1)` tag per `AuG`/`AdG` edge between `loc` and `gn`,
in either orientation. -/
def regEdgeTags (g : GraphState) (loc gn : GNode) : List String :=
  (g.edges.filter (fun e => decide ((e.2.1 = "AuG" ∨ e.2.1 = "AdG") ∧
      ((e.1 = loc.id ∧ e.2.2 = gn.id) ∨ (e.1 = gn.id ∧ e.2.2 = loc.id))))).map (fun e => e.2.1)

/-- The relationship instances of `(c:Compound)-[r2:CuG|CdG]->(g)` (directed):
one `type(r2)` tag per `CuG`/`CdG` edge from `c` to `gn`. -/
def compEdgeTags (g : GraphState) (c gn : GNode) : List String :=
  (g.edges.filter (fun e => decide ((e.2.1 = "CuG" ∨ e.2.1 = "CdG") ∧
      e.1 = c.id ∧ e.2.2 = gn.id))).map (fun e => e.2.1)

/-- The `(compound, gene)` projection of the rows of `query2`'s main query
that satisfy the direction-opposition part of its `WHERE` clause, before the
`NOT (c)-[:CtD]->(d)` exclusion. -/
def q2MatchRows (g : GraphState) (did : String) : List (GNode × GNode) :=
  (q2LocRows g did).flatMap fun dl =>
    (g.nodes.filter (fun gn => decide ("Gene" ∈ gn.labels))).flatMap fun gn =>
      (regEdgeTags g dl.2 gn).flatMap fun t1 =>
        (g.nodes.filter (fun c => decide ("Compound" ∈ c.labels))).flatMap fun c =>
          (compEdgeTags g c gn).filterMap fun t2 =>
            if (t1 = "AuG" ∧ t2 = "CdG") ∨ (t1 = "AdG" ∧ t2 = "CuG") then some (c, gn)
            else none

/-- The surviving rows: `AND NOT (c)-[:CtD]->(d)` (per the match, `d.id` is
the queried disease id, so the condition depends only on the compound). -/
def q2Rows (g : GraphState) (did : String) : List (GNode × GNode) :=
  (q2MatchRows g did).filter (fun p => decide ((p.1.id, "CtD", did) ∉ g.edges))

/-- `WITH DISTINCT c, count(DISTINCT g) as gene_count`: one entry per
distinct surviving compound node, with the number of distinct gene nodes
matched for it. -/
def q2Agg (g : GraphState) (did : String) : List (GNode × Nat) :=
  ((q2Rows g did).map Prod.fst).dedup.map fun c =>
    (c, (((q2Rows g did).filter (fun p => decide (p.1 = c))).map Prod.snd).dedup.length)

/-- `RETURN c.name as drug_name, gene_count`: the aggregate rows projected to
`(name, matchedGeneCount)` pairs, before ordering. -/
def q2Candidates (g : GraphState) (did : String) : List (String × Nat) :=
  (q2Agg g did).map (fun p => (p.1.name, p.2))

/-- `ORDER BY gene_count DESC`: within the output, every later entry has a
count no larger than every earlier one. -/
def SortedByCountDesc (out : List (String × Nat)) : Prop :=
  out.Pairwise (fun a b => b.2 ≤ a.2)

/-- The contract of `query2`'s main query as sent to the store: the returned
row list is the aggregate rows in some order consistent with
`ORDER BY gene_count DESC`.  The query text has no tie-break key, so any
permutation that is sorted by descending count satisfies it. -/
def q2ResultSpec (g : GraphState) (did : String) (out : List (String × Nat)) : Prop :=
  out.Perm (q2Candidates g did) ∧ SortedByCountDesc out

/-- One deterministic execution of the store's `ORDER BY`: a merge sort of
the aggregate rows by descending count. -/
def q2Run (g : GraphState) (did : String) : List (String × Nat) :=
  (q2Candidates g did).mergeSort (fun a b => Nat.ble b.2 a.2)

/-- `GraphDB.query2`: the first statement runs
`MATCH (d:Disease {id: $disease_id}) RETURN d.name` and immediately
subscripts `.single()`'s result (`disease['name']`).  When no such disease
exists, `single()` is `None` and the subscript raises a `TypeError` that
escapes the call; otherwise the main query's rows are returned. -/
def query2 (g : GraphState) (disease_id : String) : Except QueryErr (List (String × Nat)) :=
  match diseaseNode g disease_id with
  | none => .error (.raw "TypeError: NoneType object is not subscriptable")
  | some _ => .ok (q2Run g disease_id)

/-- `loc` is an anatomical location of the disease `did`: some `Disease` node
with id `did` has a `DlA` edge to the `Anatomy` node `loc`. -/
def diseaseLoc (g : GraphState) (did : String) (loc : GNode) : Prop :=
  loc ∈ g.nodes ∧ "Anatomy" ∈ loc.labels ∧
    ∃ d ∈ g.nodes, "Disease" ∈ d.labels ∧ d.id = did ∧ (d.id, "DlA", loc.id) ∈ g.edges

/-- The location `loc` has a gene-regulation edge (`AuG`/`AdG`, either
orientation, as the undirected Cypher pattern matches) to gene `gn` with the
given up/down direction. -/
def anatomyReg (g : GraphState) (loc gn : GNode) : Dir → Prop
  | .up => (loc.id, "AuG", gn.id) ∈ g.edges ∨ (gn.id, "AuG", loc.id) ∈ g.edges
  | .down => (loc.id, "AdG", gn.id) ∈ g.edges ∨ (gn.id, "AdG", loc.id) ∈ g.edges

/-- The compound `c` has a regulation edge (`CuG`/`CdG`, directed from the
compound) to gene `gn` with the given up/down direction. -/
def compoundReg (g : GraphState) (c gn : GNode) : Dir → Prop
  | .up => (c.id, "CuG", gn.id) ∈ g.edges
  | .down => (c.id, "CdG", gn.id) ∈ g.edges

/-- Compound `c` qualifies for gene `gn` (before the known-treatment
exclusion): some anatomical location of the disease regulates `gn` in one
direction while `c` regulates `gn` in the opposite direction. -/
def qualifiesForGene (g : GraphState) (did : String) (c gn : GNode) : Prop :=
  c ∈ g.nodes ∧ "Compound" ∈ c.labels ∧ gn ∈ g.nodes ∧ "Gene" ∈ gn.labels ∧
    ∃ loc, diseaseLoc g did loc ∧
      ∃ d1 d2, anatomyReg g loc gn d1 ∧ compoundReg g c gn d2 ∧ d1 ≠ d2

/-- Compound `c` qualifies for gene `gn` and survives the
`NOT (c)-[:CtD]->(d)` exclusion. -/
def survivesForGene (g : GraphState) (did : String) (c gn : GNode) : Prop :=
  qualifiesForGene g did c gn ∧ (c.id, "CtD", did) ∉ g.edges

instance (out : List (String × Nat)) : Decidable (SortedByCountDesc out) := by
  unfold SortedByCountDesc; infer_instance

instance (g : GraphState) (did : String) (out : List (String × Nat)) :
    Decidable (q2ResultSpec g did out) := by
  unfold q2ResultSpec; infer_instance

/-! Concrete fixtures used by witnesses and counterexamples. -/

/-- A `Disease` node. -/
def nDis : GNode := ⟨"Disease::D1", "dis", "Disease", ["Disease"]⟩

/-- An `Anatomy` node. -/
def nAna : GNode := ⟨"Anatomy::A1", "ana", "Anatomy", ["Anatomy"]⟩

/-- A second `Anatomy` node. -/
def nAna2 : GNode := ⟨"Anatomy::A2", "ana2", "Anatomy", ["Anatomy"]⟩

/-- A `Gene` node. -/
def nGene : GNode := ⟨"Gene::G1", "gen", "Gene", ["Gene"]⟩

/-- A `Compound` node. -/
def nCA : GNode := ⟨"Compound::C1", "drugA", "Compound", ["Compound"]⟩

/-- A second `Compound` node. -/
def nCB : GNode := ⟨"Compound::C2", "drugB", "Compound", ["Compound"]⟩

/-- A graph in which two compounds each match the repurposing pattern on the
same single gene, so both candidates carry `matchedGeneCount = 1`. -/
def gTie : GraphState :=
  ⟨[nDis, nAna, nGene, nCA, nCB],
   [("Disease::D1", "DlA", "Anatomy::A1"),
    ("Anatomy::A1", "AuG", "Gene::G1"),
    ("Compound::C1", "CdG", "Gene::G1"),
    ("Compound::C2", "CdG", "Gene::G1")]⟩

/-- A graph holding a single `Compound` node and nothing else. -/
def gCompoundOnly : GraphState := ⟨[nCA], []⟩

/-- `gTie` plus a `CtD` (treats) edge from `Compound::C1` to the disease:
`drugA` still satisfies the opposite-regulation pattern but is a known
treatment. -/
def gTreats : GraphState :=
  ⟨[nDis, nAna, nGene, nCA, nCB],
   [("Disease::D1", "DlA", "Anatomy::A1"),
    ("Anatomy::A1", "AuG", "Gene::G1"),
    ("Compound::C1", "CdG", "Gene::G1"),
    ("Compound::C2", "CdG", "Gene::G1"),
    ("Compound::C1", "CtD", "Disease::D1")]⟩

/-- A graph in which the one compound matches the one gene through two
different anatomical locations of the disease. -/
def gTwoLoc : GraphState :=
  ⟨[nDis, nAna, nAna2, nGene, nCA],
   [("Disease::D1", "DlA", "Anatomy::A1"),
    ("Disease::D1", "DlA", "Anatomy::A2"),
    ("Anatomy::A1", "AuG", "Gene::G1"),
    ("Anatomy::A2", "AuG", "Gene::G1"),
    ("Compound::C1", "CdG", "Gene::G1")]⟩

/-- A graph holding a single `Disease` node with no relations. -/
def gDiseaseOnly : GraphState := ⟨[nDis], []⟩

/-- An empty pair of stores, the state before a first load. -/
def initState : SysState := ⟨[], ⟨[], []⟩⟩

/-- Node rows whose first row carries a `kind` violating the strict grammar
and whose second row is well-formed. -/
def mixedNodeRows : List NodeRow :=
  [⟨"Gene::1", "bad", "1bad"⟩, ⟨"Gene::2", "good", "Gene"⟩]

/-- A two-row edge input whose rows share one relation type. -/
def sampleEdgeRows : List EdgeRow :=
  [⟨"Gene::1", "Gene::2", "T-1"⟩, ⟨"Gene::2", "Gene::1", "T-1"⟩]

/-! Structure lemmas for `batches`. -/

theorem batches_flatten (l : List α) : (batches l).flatten = l := by
  induction l using batches.induct with
  | case1 => simp [batches]
  | case2 x xs ih => rw [batches]; simp [ih]

theorem batches_length (l : List α) :
    (batches l).length = (l.length + batch_size - 1) / batch_size := by
  induction l using batches.induct with
  | case1 => simp [batches, batch_size]
  | case2 x xs ih =>
    rw [batches]
    simp only [List.length_cons, ih, List.length_drop]
    simp only [batch_size]
    omega

theorem batches_mem_length {l b : List α} (h : b ∈ batches l) :
    b.length ≤ batch_size := by
  induction l using batches.induct with
  | case1 => simp [batches] at h
  | case2 x xs ih =>
    rw [batches] at h
    rcases List.mem_cons.mp h with h1 | h2
    · subst h1; simp [List.length_take]
    · exact ih h2

theorem batches_of_short {l : List α} (h0 : l ≠ []) (h : l.length ≤ batch_size) :
    batches l = [l] := by
  match l, h0 with
  | x :: xs, _ =>
    rw [batches]
    rw [List.take_of_length_le h, List.drop_of_length_le h]
    simp [batches]

theorem batches_of_long {l : List α} (h : batch_size < l.length) :
    batches l = l.take batch_size :: batches (l.drop batch_size) := by
  match l with
  | [] => simp at h
  | x :: xs => rw [batches]

theorem batches_map_length_2500 {l : List α} (h : l.length = 2500) :
    (batches l).map List.length = [1000, 1000, 500] := by
  rw [batches_of_long (by simp [batch_size, h])]
  rw [batches_of_long (by simp [batch_size, h])]
  rw [batches_of_short (by simp [← List.length_pos, h, batch_size])
    (by simp [h, batch_size])]
  simp [h, batch_size]

/-- C7: for every edge input, the loader groups edge records by relation
type; for each group it sanitizes the relation type once (every batch
operation of the group carries the one sanitized type) and submits the group
in consecutive batches of at most `batch_size = 1000` edges, issuing exactly
`ceil(n / 1000)` operations whose concatenation is the whole group; a group
of 2500 edges yields exactly 3 batches of sizes 1000, 1000, 500 whose
concatenation is the whole group. -/
theorem edge_batching_complete :
    (∀ (edges : List EdgeRow) (me : String) (lst : List (String × String)),
      (me, lst) ∈ edge_groups edges →
        edgePhaseOps edges = (edge_groups edges).flatMap (fun p => groupOps p.1 p.2) ∧
        (∀ op ∈ groupOps me lst, op.relType = sanitize_metaedge me) ∧
        ((groupOps me lst).map BatchOp.batch).flatten = lst ∧
        (groupOps me lst).length = (lst.length + batch_size - 1) / batch_size ∧
        (∀ op ∈ groupOps me lst, op.batch.length ≤ batch_size)) ∧
    (∀ (me : String) (lst : List (String × String)), lst.length = 2500 →
      (groupOps me lst).map (fun op => op.batch.length) = [1000, 1000, 500] ∧
      ((groupOps me lst).map BatchOp.batch).flatten = lst) := by
  constructor
  · intro edges me lst _
    refine ⟨rfl, ?_, ?_, ?_, ?_⟩
    · intro op hop
      simp only [groupOps, List.mem_map] at hop
      obtain ⟨b, _, rfl⟩ := hop
      rfl
    · simp [groupOps, List.map_map, Function.comp_def, batches_flatten]
    · simp [groupOps, batches_length]
    · intro op hop
      simp only [groupOps, List.mem_map] at hop
      obtain ⟨b, hb, rfl⟩ := hop
      exact batches_mem_length hb
  · intro me lst h
    refine ⟨?_, ?_⟩
    · simp [groupOps, List.map_map, Function.comp_def, batches_map_length_2500 h]
    · simp [groupOps, List.map_map, Function.comp_def, batches_flatten]

/-- Witness for C7: the concrete group of `sampleEdgeRows` under relation
type `"T-1"` gets `ceil(2/1000) = 1` batch, and a group of 2500 edges gets
batches of sizes 1000, 1000, 500. -/
theorem edge_batching_complete_witness :
    (("T-1", [("Gene::1", "Gene::2"), ("Gene::2", "Gene::1")]) ∈ edge_groups sampleEdgeRows ∧
      (groupOps "T-1" [("Gene::1", "Gene::2"), ("Gene::2", "Gene::1")]).length =
        ([("Gene::1", "Gene::2"), ("Gene::2", "Gene::1")].length + batch_size - 1) / batch_size) ∧
    ((List.replicate 2500 (("a", "b") : String × String)).length = 2500 ∧
      (groupOps "T" (List.replicate 2500 (("a", "b") : String × String))).map
        (fun op => op.batch.length) = [1000, 1000, 500]) :=
  ⟨⟨by decide, (edge_batching_complete.1 sampleEdgeRows "T-1" _ (by decide)).2.2.2.1⟩,
   ⟨List.length_replicate 2500 ("a", "b"),
    (edge_batching_complete.2 "T" _ (List.length_replicate 2500 ("a", "b"))).1⟩⟩

unseal batches in
/-- C10 (implicit claim): `sanitize_metaedge` output is not guaranteed to
satisfy the strict grammar — an input with no word characters sanitizes to
the empty string and an input starting with a digit keeps that digit — and
`create_db` interpolates the unchecked result as the relation type of the
batched edge-merge query (`edgePhaseOps` emits an operation whose `relType`
is the empty string). -/
theorem sanitize_metaedge_unchecked_output :
    (sanitize_metaedge "-->" = "" ∧ validKind (sanitize_metaedge "-->") = false) ∧
    (sanitize_metaedge "1-a" = "1a" ∧ validKind (sanitize_metaedge "1-a") = false) ∧
    edgePhaseOps [⟨"Gene::1", "Gene::2", "-->"⟩] = [⟨"", [("Gene::1", "Gene::2")]⟩] := by
  decide

/-- C1 (code bug): `create_db` performs no `kind` validation and has no
per-record error recovery.  On a node list whose first row has the invalid
kind `"1bad"` and whose second row has the valid kind `"Gene"`, the load
fails (the interpolated label is rejected by the store and the exception
propagates) and the valid second node is never inserted — the failure is
fatal to the rest of the load, not scoped to the offending node as the spec
requires. -/
theorem create_db_invalid_kind_aborts_whole_load :
    validKind "Gene" = true ∧
    (create_db initState mixedNodeRows []).2 ≠ none ∧
    (create_db initState mixedNodeRows []).1.graph.nodes = [] := by
  decide

/-- C2 (code bug): for a disease id that resolves to no `Disease` node,
`query2` raises the untyped `TypeError` produced by subscripting
`single()`'s `None` result — not the typed `NotFound` failure the spec
requires (it does not return an empty sequence either). -/
theorem query2_missing_disease_raises_untyped :
    query2 gCompoundOnly "Disease::X" =
      .error (.raw "TypeError: NoneType object is not subscriptable") ∧
    QueryErr.raw "TypeError: NoneType object is not subscriptable" ≠ QueryErr.notFound :=
  ⟨rfl, by decide⟩

/-- Counterexample for C8: in `gCompoundOnly` the entity `Compound::C1`
exists and has no related compounds, yet `query1` returns `none` (the
existence check matches only `Disease`-labeled nodes), contradicting the
claim that an existing entity yields a result with an empty drug
collection. -/
theorem query1_existing_entity_counterexample :
    (∃ n ∈ gCompoundOnly.nodes, n.id = "Compound::C1") ∧
    (∀ c ∈ gCompoundOnly.nodes, ¬("Compound" ∈ c.labels ∧
      ((c.id, "CtD", "Compound::C1") ∈ gCompoundOnly.edges ∨
       (c.id, "CpD", "Compound::C1") ∈ gCompoundOnly.edges))) ∧
    query1 gCompoundOnly "Compound::C1" = none := by
  decide

/-- Counterexample for C3: on the fixed input graph `gTie`, two distinct
output sequences both satisfy the main query's contract (a permutation of
the aggregate rows that is sorted by descending count) — the query pins no
order among compounds with equal `matchedGeneCount`, so the order is not
determined. -/
theorem q2_tie_order_not_deterministic :
    ¬ (∀ out1 out2, q2ResultSpec gTie "Disease::D1" out1 →
        q2ResultSpec gTie "Disease::D1" out2 → out1 = out2) := by
  intro h
  have h2 := h [("drugA", 1), ("drugB", 1)] [("drugB", 1), ("drugA", 1)]
    (by decide) (by decide)
  simp at h2

/-- C3 (amended): for every disease input, the execution of `query2`'s
ordering (a merge sort of the aggregate rows by descending count) returns a
permutation of the aggregate rows that is sorted in descending order of
`matchedGeneCount` — that much the query guarantees; the tie order is only
one of the permutations its contract admits. -/
theorem q2_output_sorted_desc_by_count (g : GraphState) (did : String) :
    q2ResultSpec g did (q2Run g did) := by
  refine ⟨List.mergeSort_perm _ _, ?_⟩
  have htrans : ∀ a b c : String × Nat, Nat.ble b.2 a.2 = true → Nat.ble c.2 b.2 = true →
      Nat.ble c.2 a.2 = true := by
    intro a b c h1 h2
    simp only [Nat.ble_eq] at *
    omega
  have htotal : ∀ a b : String × Nat, (Nat.ble b.2 a.2 || Nat.ble a.2 b.2) = true := by
    intro a b
    simp only [Bool.or_eq_true, Nat.ble_eq]
    omega
  have h := @List.sorted_mergeSort (String × Nat) (fun a b => Nat.ble b.2 a.2)
    htrans htotal (q2Candidates g did)
  exact h.imp (fun hab => by simpa [Nat.ble_eq] using hab)

/-- C8 (amended): `query1` returns `none` when no `Disease`-labeled node
with the id exists (the existence check matches only `Disease` nodes), and
for an existing `Disease` node with no inbound `CtD`/`CpD` compound edges it
returns a result whose drug collection is empty rather than `none` — so for
diseases, "does not exist" and "exists with no relations" stay
distinguishable. -/
theorem query1_notfound_vs_empty_drugs (g : GraphState) (i : String) :
    ((∀ n ∈ g.nodes, ¬("Disease" ∈ n.labels ∧ n.id = i)) → query1 g i = none) ∧
    (∀ d, diseaseNode g i = some d →
      (∀ c ∈ g.nodes, ¬("Compound" ∈ c.labels ∧
        ((c.id, "CtD", d.id) ∈ g.edges ∨ (c.id, "CpD", d.id) ∈ g.edges))) →
      ∃ r, query1 g i = some r ∧ r.drug_names = []) := by
  constructor
  · intro h
    unfold query1
    have hd : diseaseNode g i = none := by
      unfold diseaseNode
      rw [List.find?_eq_none]
      intro n hn
      simpa using h n hn
    rw [hd]
  · intro d hd hc
    unfold query1
    rw [hd]
    refine ⟨_, rfl, ?_⟩
    show q1DrugNames g d = []
    unfold q1DrugNames
    have hf : g.nodes.filter (fun c => decide ("Compound" ∈ c.labels ∧
        ((c.id, "CtD", d.id) ∈ g.edges ∨ (c.id, "CpD", d.id) ∈ g.edges))) = [] := by
      rw [List.filter_eq_nil_iff]
      intro c hcm
      simpa using hc c hcm
    rw [hf]
    rfl

/-- Witness for the amended C8: in `gCompoundOnly` no `Disease` node with id
`Disease::D1` exists and `query1` returns `none`; in `gDiseaseOnly` the
disease exists with no compound relations and `query1` returns a result
with an empty drug list. -/
theorem query1_notfound_vs_empty_drugs_witness :
    (∀ n ∈ gCompoundOnly.nodes, ¬("Disease" ∈ n.labels ∧ n.id = "Disease::D1")) ∧
    query1 gCompoundOnly "Disease::D1" = none ∧
    diseaseNode gDiseaseOnly "Disease::D1" = some nDis ∧
    (∃ r, query1 gDiseaseOnly "Disease::D1" = some r ∧ r.drug_names = []) :=
  ⟨by decide, (query1_notfound_vs_empty_drugs gCompoundOnly "Disease::D1").1 (by decide),
   by decide,
   (query1_notfound_vs_empty_drugs gDiseaseOnly "Disease::D1").2 nDis (by decide) (by decide)⟩

/-! Membership characterizations for the operational row computations of
`query2`'s main query. -/

theorem mem_q2LocRows {g : GraphState} {did : String} {d loc : GNode} :
    (d, loc) ∈ q2LocRows g did ↔
      d ∈ g.nodes ∧ "Disease" ∈ d.labels ∧ d.id = did ∧
      loc ∈ g.nodes ∧ "Anatomy" ∈ loc.labels ∧ (d.id, "DlA", loc.id) ∈ g.edges := by
  simp only [q2LocRows, List.mem_flatMap, List.mem_map, List.mem_filter,
    decide_eq_true_eq, Prod.mk.injEq]
  constructor
  · rintro ⟨d0, ⟨hd0, hDis, hid⟩, loc0, ⟨hl0, hAna, hdla⟩, rfl, rfl⟩
    exact ⟨hd0, hDis, hid, hl0, hAna, hdla⟩
  · rintro ⟨hd0, hDis, hid, hl0, hAna, hdla⟩
    exact ⟨d, ⟨hd0, hDis, hid⟩, loc, ⟨hl0, hAna, hdla⟩, rfl, rfl⟩

theorem mem_regEdgeTags_up {g : GraphState} {loc gn : GNode} :
    "AuG" ∈ regEdgeTags g loc gn ↔ anatomyReg g loc gn .up := by
  simp only [regEdgeTags, List.mem_map, List.mem_filter, decide_eq_true_eq, anatomyReg]
  constructor
  · rintro ⟨⟨s, t, e⟩, ⟨hmem, _, hor⟩, rfl⟩
    rcases hor with ⟨h1, h2⟩ | ⟨h1, h2⟩
    · left; subst h1; subst h2; exact hmem
    · right; subst h1; subst h2; exact hmem
  · rintro (h | h)
    · exact ⟨(loc.id, "AuG", gn.id), ⟨h, Or.inl rfl, Or.inl ⟨rfl, rfl⟩⟩, rfl⟩
    · exact ⟨(gn.id, "AuG", loc.id), ⟨h, Or.inl rfl, Or.inr ⟨rfl, rfl⟩⟩, rfl⟩

theorem mem_regEdgeTags_down {g : GraphState} {loc gn : GNode} :
    "AdG" ∈ regEdgeTags g loc gn ↔ anatomyReg g loc gn .down := by
  simp only [regEdgeTags, List.mem_map, List.mem_filter, decide_eq_true_eq, anatomyReg]
  constructor
  · rintro ⟨⟨s, t, e⟩, ⟨hmem, _, hor⟩, rfl⟩
    rcases hor with ⟨h1, h2⟩ | ⟨h1, h2⟩
    · left; subst h1; subst h2; exact hmem
    · right; subst h1; subst h2; exact hmem
  · rintro (h | h)
    · exact ⟨(loc.id, "AdG", gn.id), ⟨h, Or.inr rfl, Or.inl ⟨rfl, rfl⟩⟩, rfl⟩
    · exact ⟨(gn.id, "AdG", loc.id), ⟨h, Or.inr rfl, Or.inr ⟨rfl, rfl⟩⟩, rfl⟩

theorem mem_compEdgeTags_up {g : GraphState} {c gn : GNode} :
    "CuG" ∈ compEdgeTags g c gn ↔ compoundReg g c gn .up := by
  simp only [compEdgeTags, List.mem_map, List.mem_filter, decide_eq_true_eq, compoundReg]
  constructor
  · rintro ⟨⟨s, t, e⟩, ⟨hmem, _, h1, h2⟩, rfl⟩
    subst h1; subst h2; exact hmem
  · intro h
    exact ⟨(c.id, "CuG", gn.id), ⟨h, Or.inl rfl, rfl, rfl⟩, rfl⟩

theorem mem_compEdgeTags_down {g : GraphState} {c gn : GNode} :
    "CdG" ∈ compEdgeTags g c gn ↔ compoundReg g c gn .down := by
  simp only [compEdgeTags, List.mem_map, List.mem_filter, decide_eq_true_eq, compoundReg]
  constructor
  · rintro ⟨⟨s, t, e⟩, ⟨hmem, _, h1, h2⟩, rfl⟩
    subst h1; subst h2; exact hmem
  · intro h
    exact ⟨(c.id, "CdG", gn.id), ⟨h, Or.inr rfl, rfl, rfl⟩, rfl⟩

/-- The operational row computation of `query2`'s main query agrees with the
declarative opposite-regulation condition (helper shared by several
results). -/
theorem mem_q2MatchRows_iff {g : GraphState} {did : String} {c gn : GNode} :
    (c, gn) ∈ q2MatchRows g did ↔ qualifiesForGene g did c gn := by
  simp only [q2MatchRows, List.mem_flatMap, List.mem_filter, List.mem_filterMap,
    decide_eq_true_eq]
  constructor
  · rintro ⟨⟨d, loc⟩, hdl, gn0, ⟨hgn0, hGene⟩, t1, ht1, c0, ⟨hc0, hComp⟩, t2, ht2, hif⟩
    rw [mem_q2LocRows] at hdl
    obtain ⟨hd, hDis, hid, hloc, hAna, hdla⟩ := hdl
    by_cases hcond : (t1 = "AuG" ∧ t2 = "CdG") ∨ (t1 = "AdG" ∧ t2 = "CuG")
    · rw [if_pos hcond] at hif
      have hc' : c0 = c := congrArg Prod.fst (Option.some.inj hif)
      have hg' : gn0 = gn := congrArg Prod.snd (Option.some.inj hif)
      subst hc'; subst hg'
      refine ⟨hc0, hComp, hgn0, hGene, loc, ⟨hloc, hAna, d, hd, hDis, hid, hdla⟩, ?_⟩
      rcases hcond with ⟨rfl, rfl⟩ | ⟨rfl, rfl⟩
      · exact ⟨.up, .down, mem_regEdgeTags_up.mp ht1, mem_compEdgeTags_down.mp ht2, by decide⟩
      · exact ⟨.down, .up, mem_regEdgeTags_down.mp ht1, mem_compEdgeTags_up.mp ht2, by decide⟩
    · rw [if_neg hcond] at hif
      cases hif
  · rintro ⟨hc, hComp, hgn, hGene, loc, ⟨hloc, hAna, d, hd, hDis, hid, hdla⟩, d1, d2, ha, hcr, hne⟩
    refine ⟨(d, loc), mem_q2LocRows.mpr ⟨hd, hDis, hid, hloc, hAna, hdla⟩,
      gn, ⟨hgn, hGene⟩, ?_⟩
    match d1, d2, hne with
    | .up, .down, _ =>
      exact ⟨"AuG", mem_regEdgeTags_up.mpr ha, c, ⟨hc, hComp⟩, "CdG",
        mem_compEdgeTags_down.mpr hcr, by simp⟩
    | .down, .up, _ =>
      exact ⟨"AdG", mem_regEdgeTags_down.mpr ha, c, ⟨hc, hComp⟩, "CuG",
        mem_compEdgeTags_up.mpr hcr, by simp⟩
    | .up, .up, h => exact absurd rfl h
    | .down, .down, h => exact absurd rfl h

/-- A surviving row is a qualifying pair whose compound has no `CtD` edge to
the queried disease (helper shared by several results). -/
theorem mem_q2Rows_iff {g : GraphState} {did : String} {c gn : GNode} :
    (c, gn) ∈ q2Rows g did ↔ survivesForGene g did c gn := by
  simp only [q2Rows, List.mem_filter, decide_eq_true_eq, survivesForGene,
    mem_q2MatchRows_iff]

/-- C4: a compound `c` is matched for gene `g` by `query2`'s main pattern iff
some anatomical location of the disease has a gene-regulation edge to `g`
with direction `d1` and `c` has a compound-gene regulation edge to `g` with
direction `d2`, where `d1` and `d2` are opposite. -/
theorem q2_match_iff_opposite_regulation (g : GraphState) (did : String) (c gn : GNode) :
    (c, gn) ∈ q2MatchRows g did ↔ qualifiesForGene g did c gn :=
  mem_q2MatchRows_iff

/-- C5: a compound with a `CtD` (treats) edge to the queried disease never
appears among `query2`'s surviving rows — for any gene — and never appears
as an aggregate candidate: the exclusion is compound-level for the whole
disease, not per gene match. -/
theorem q2_excludes_known_treatments (g : GraphState) (did : String) (c : GNode)
    (h : (c.id, "CtD", did) ∈ g.edges) :
    (∀ gn, (c, gn) ∉ q2Rows g did) ∧ (∀ p ∈ q2Agg g did, p.1 ≠ c) := by
  have h1 : ∀ gn, (c, gn) ∉ q2Rows g did := by
    intro gn hmem
    simp only [q2Rows, List.mem_filter, decide_eq_true_eq] at hmem
    exact hmem.2 h
  refine ⟨h1, ?_⟩
  intro p hp hpc
  simp only [q2Agg, List.mem_map, List.mem_dedup] at hp
  obtain ⟨c0, hc0, rfl⟩ := hp
  simp only at hpc
  obtain ⟨q, hq, hq1⟩ := hc0
  apply h1 q.2
  have hqe : q = (c, q.2) := by cases q; simp_all
  rw [← hqe]; exact hq

/-- Witness for C5: in `gTreats`, `drugA` treats the disease and still
satisfies the opposite-regulation pattern for `Gene::G1`, yet it is excluded
from all surviving rows and candidates. -/
theorem q2_excludes_known_treatments_witness :
    (nCA.id, "CtD", "Disease::D1") ∈ gTreats.edges ∧
    qualifiesForGene gTreats "Disease::D1" nCA nGene ∧
    (∀ gn, (nCA, gn) ∉ q2Rows gTreats "Disease::D1") ∧
    (∀ p ∈ q2Agg gTreats "Disease::D1", p.1 ≠ nCA) := by
  have h : (nCA.id, "CtD", "Disease::D1") ∈ gTreats.edges := by decide
  refine ⟨h, ?_, (q2_excludes_known_treatments gTreats "Disease::D1" nCA h).1,
    (q2_excludes_known_treatments gTreats "Disease::D1" nCA h).2⟩
  refine ⟨by decide, by decide, by decide, by decide, nAna,
    ⟨by decide, by decide, nDis, by decide, by decide, by decide, by decide⟩,
    .up, .down, ?_, ?_, by decide⟩
  · exact Or.inl (by decide)
  · show (nCA.id, "CdG", nGene.id) ∈ gTreats.edges
    decide

/-- C6: every aggregate entry's `matchedGeneCount` equals the number of
distinct genes for which that compound qualified and survived — exhibited
as a duplicate-free list holding exactly the surviving genes, whose length
is the count; a gene contributes once no matter how many location or
direction pairs produced the match. -/
theorem q2_count_counts_distinct_genes_once (g : GraphState) (did : String)
    (c : GNode) (k : Nat) (h : (c, k) ∈ q2Agg g did) :
    ∃ gl : List GNode, gl.Nodup ∧ (∀ gn, gn ∈ gl ↔ survivesForGene g did c gn) ∧
      gl.length = k := by
  simp only [q2Agg, List.mem_map] at h
  obtain ⟨c0, hc0, heq⟩ := h
  have hc' : c0 = c := congrArg Prod.fst heq
  have hk : (((q2Rows g did).filter (fun p => decide (p.1 = c0))).map Prod.snd).dedup.length
      = k := congrArg Prod.snd heq
  subst hc'
  refine ⟨(((q2Rows g did).filter (fun p => decide (p.1 = c0))).map Prod.snd).dedup,
    List.nodup_dedup _, ?_, hk⟩
  intro gn
  rw [← mem_q2Rows_iff]
  simp only [List.mem_dedup, List.mem_map, List.mem_filter, decide_eq_true_eq]
  constructor
  · rintro ⟨p, ⟨hp, h1⟩, h2⟩
    have hpe : p = (c0, gn) := by cases p; simp_all
    rw [← hpe]; exact hp
  · intro hp
    exact ⟨(c0, gn), ⟨hp, rfl⟩, rfl⟩

/-- Witness for C6: in `gTwoLoc` the compound matches its one gene through
two different anatomical locations, yet its aggregate count is 1, the length
of the one-element list of its surviving genes. -/
theorem q2_count_counts_distinct_genes_once_witness :
    (nCA, 1) ∈ q2Agg gTwoLoc "Disease::D1" ∧
    (∃ gl : List GNode, gl.Nodup ∧
      (∀ gn, gn ∈ gl ↔ survivesForGene gTwoLoc "Disease::D1" nCA gn) ∧ gl.length = 1) :=
  ⟨by decide, q2_count_counts_distinct_genes_once gTwoLoc "Disease::D1" nCA 1 (by decide)⟩

/-! Key/id bookkeeping lemmas for the two stores, toward load idempotence. -/

theorem mongo_any_iff (s : MongoState) (i : String) :
    (s.any (fun p => p.1 = i)) = true ↔ i ∈ mongoKeys s := by
  simp only [List.any_eq_true, decide_eq_true_eq, mongoKeys, List.mem_map]

theorem mongoUpsert_keys_of_mem {s : MongoState} {i : String} (d : MDoc)
    (h : i ∈ mongoKeys s) : mongoKeys (mongoUpsert s i d) = mongoKeys s := by
  unfold mongoUpsert
  rw [if_pos ((mongo_any_iff s i).mpr h)]
  unfold mongoKeys
  rw [List.map_map]
  apply List.map_congr_left
  intro p _
  by_cases hp : p.1 = i
  · simp [hp]
  · simp [hp]

theorem mongoUpsert_keys_of_not_mem {s : MongoState} {i : String} (d : MDoc)
    (h : i ∉ mongoKeys s) : mongoKeys (mongoUpsert s i d) = mongoKeys s ++ [i] := by
  unfold mongoUpsert
  rw [if_neg (by simpa using fun hc => h ((mongo_any_iff s i).mp hc))]
  simp [mongoKeys]

theorem mongoUpsert_keys_mono {s : MongoState} {i : String} (d : MDoc) {j : String}
    (h : j ∈ mongoKeys s) : j ∈ mongoKeys (mongoUpsert s i d) := by
  by_cases hi : i ∈ mongoKeys s
  · rw [mongoUpsert_keys_of_mem d hi]; exact h
  · rw [mongoUpsert_keys_of_not_mem d hi]; exact List.mem_append_left _ h

theorem mongoUpsert_keys_self (s : MongoState) (i : String) (d : MDoc) :
    i ∈ mongoKeys (mongoUpsert s i d) := by
  by_cases hi : i ∈ mongoKeys s
  · rw [mongoUpsert_keys_of_mem d hi]; exact hi
  · rw [mongoUpsert_keys_of_not_mem d hi]; exact List.mem_append_right _ (by simp)

theorem mongoPhase_keys_mono (rows : List NodeRow) (s : MongoState) {j : String}
    (h : j ∈ mongoKeys s) : j ∈ mongoKeys (mongoPhase s rows) := by
  induction rows generalizing s with
  | nil => exact h
  | cons r rs ih => exact ih _ (mongoUpsert_keys_mono _ h)

theorem mongoPhase_keys_cover (rows : List NodeRow) (s : MongoState) :
    ∀ r ∈ rows, r.id ∈ mongoKeys (mongoPhase s rows) := by
  induction rows generalizing s with
  | nil => intro r hr; cases hr
  | cons r rs ih =>
    intro r' hr'
    rcases List.mem_cons.mp hr' with rfl | hmem
    · exact mongoPhase_keys_mono rs _ (mongoUpsert_keys_self s r'.id ⟨r'.name, r'.kind⟩)
    · exact ih _ r' hmem

theorem mongoPhase_keys_of_covered (rows : List NodeRow) (s : MongoState)
    (h : ∀ r ∈ rows, r.id ∈ mongoKeys s) :
    mongoKeys (mongoPhase s rows) = mongoKeys s := by
  induction rows generalizing s with
  | nil => rfl
  | cons r rs ih =>
    show mongoKeys (mongoPhase (mongoUpsert s r.id ⟨r.name, r.kind⟩) rs) = mongoKeys s
    rw [ih _ (fun r' hr' => by
      rw [mongoUpsert_keys_of_mem _ (h r (by simp))]
      exact h r' (List.mem_cons_of_mem _ hr'))]
    exact mongoUpsert_keys_of_mem _ (h r (by simp))

theorem mongoPhase_length_idem (rows : List NodeRow) (s : MongoState) :
    (mongoPhase (mongoPhase s rows) rows).length = (mongoPhase s rows).length := by
  have h1 : mongoKeys (mongoPhase (mongoPhase s rows) rows) = mongoKeys (mongoPhase s rows) :=
    mongoPhase_keys_of_covered rows (mongoPhase s rows) (mongoPhase_keys_cover rows s)
  have h2 := congrArg List.length h1
  simpa [mongoKeys] using h2

theorem graph_any_iff (g : GraphState) (i : String) :
    (g.nodes.any (fun n => n.id = i)) = true ↔ i ∈ nodeIds g := by
  simp only [List.any_eq_true, decide_eq_true_eq, nodeIds, List.mem_map]

theorem setAndLabel_id (n : GNode) (nm kd : String) : (setAndLabel n nm kd).id = n.id := by
  unfold setAndLabel addLabel
  split <;> rfl

theorem mergeSetNode_edges (g : GraphState) (i nm kd : String) :
    (mergeSetNode g i nm kd).edges = g.edges := by
  unfold mergeSetNode
  split <;> rfl

theorem mergeSetNode_ids_of_mem {g : GraphState} {i : String} (nm kd : String)
    (h : i ∈ nodeIds g) : nodeIds (mergeSetNode g i nm kd) = nodeIds g := by
  unfold mergeSetNode
  rw [if_pos ((graph_any_iff g i).mpr h)]
  show (g.nodes.map _).map GNode.id = _
  rw [List.map_map]
  apply List.map_congr_left
  intro n _
  by_cases hn : n.id = i
  · simp [hn, setAndLabel_id]
  · simp [hn]

theorem mergeSetNode_ids_of_not_mem {g : GraphState} {i : String} (nm kd : String)
    (h : i ∉ nodeIds g) : nodeIds (mergeSetNode g i nm kd) = nodeIds g ++ [i] := by
  unfold mergeSetNode
  rw [if_neg (by simpa using fun hc => h ((graph_any_iff g i).mp hc))]
  simp [nodeIds, setAndLabel_id]

theorem mergeSetNode_ids_mono {g : GraphState} {i : String} (nm kd : String) {j : String}
    (h : j ∈ nodeIds g) : j ∈ nodeIds (mergeSetNode g i nm kd) := by
  by_cases hi : i ∈ nodeIds g
  · rw [mergeSetNode_ids_of_mem nm kd hi]; exact h
  · rw [mergeSetNode_ids_of_not_mem nm kd hi]; exact List.mem_append_left _ h

theorem mergeSetNode_ids_self (g : GraphState) (i nm kd : String) :
    i ∈ nodeIds (mergeSetNode g i nm kd) := by
  by_cases hi : i ∈ nodeIds g
  · rw [mergeSetNode_ids_of_mem nm kd hi]; exact hi
  · rw [mergeSetNode_ids_of_not_mem nm kd hi]; exact List.mem_append_right _ (by simp)

theorem graphNodePhase_edges (rows : List NodeRow) (g : GraphState) :
    ((graphNodePhase g rows).1).edges = g.edges := by
  induction rows generalizing g with
  | nil => rfl
  | cons r rs ih =>
    by_cases hv : validKind r.kind
    · show ((graphNodePhase g (r :: rs)).1).edges = g.edges
      simp only [graphNodePhase, runMergeNode, hv, if_true]
      rw [ih (mergeSetNode g r.id r.name r.kind)]
      exact mergeSetNode_edges g r.id r.name r.kind
    · simp [graphNodePhase, runMergeNode, hv]

theorem graphNodePhase_ids_mono (rows : List NodeRow) (g : GraphState) {j : String}
    (h : j ∈ nodeIds g) : j ∈ nodeIds (graphNodePhase g rows).1 := by
  induction rows generalizing g with
  | nil => exact h
  | cons r rs ih =>
    by_cases hv : validKind r.kind
    · simp only [graphNodePhase, runMergeNode, hv, if_true]
      exact ih _ (mergeSetNode_ids_mono _ _ h)
    · simp [graphNodePhase, runMergeNode, hv]
      exact h

theorem graphNodePhase_ids_cover (rows : List NodeRow) (g : GraphState) :
    ∀ r ∈ rows.takeWhile (fun r => validKind r.kind),
      r.id ∈ nodeIds (graphNodePhase g rows).1 := by
  induction rows generalizing g with
  | nil => intro r hr; cases hr
  | cons r rs ih =>
    intro r' hr'
    by_cases hv : validKind r.kind
    · rw [List.takeWhile_cons, if_pos hv] at hr'
      simp only [graphNodePhase, runMergeNode, hv, if_true]
      rcases List.mem_cons.mp hr' with rfl | hmem
      · exact graphNodePhase_ids_mono rs _ (mergeSetNode_ids_self g r'.id r'.name r'.kind)
      · exact ih _ r' hmem
    · rw [List.takeWhile_cons, if_neg hv] at hr'
      cases hr'

theorem graphNodePhase_ids_of_covered (rows : List NodeRow) (g : GraphState)
    (h : ∀ r ∈ rows.takeWhile (fun r => validKind r.kind), r.id ∈ nodeIds g) :
    nodeIds (graphNodePhase g rows).1 = nodeIds g := by
  induction rows generalizing g with
  | nil => rfl
  | cons r rs ih =>
    by_cases hv : validKind r.kind
    · simp only [graphNodePhase, runMergeNode, hv, if_true]
      have hr : r.id ∈ nodeIds g := by
        apply h
        rw [List.takeWhile_cons, if_pos hv]
        simp
      rw [ih _ (fun r' hr' => by
        rw [mergeSetNode_ids_of_mem _ _ hr]
        apply h
        rw [List.takeWhile_cons, if_pos hv]
        exact List.mem_cons_of_mem _ hr')]
      exact mergeSetNode_ids_of_mem _ _ hr
    · simp [graphNodePhase, runMergeNode, hv]

theorem graphNodePhase_err_const (rows : List NodeRow) (g g' : GraphState) :
    (graphNodePhase g rows).2 = (graphNodePhase g' rows).2 := by
  induction rows generalizing g g' with
  | nil => rfl
  | cons r rs ih =>
    by_cases hv : validKind r.kind
    · simp only [graphNodePhase, runMergeNode, hv, if_true]
      exact ih _ _
    · simp [graphNodePhase, runMergeNode, hv]

theorem mergeEdgeRow_nodes (rel : String) (g : GraphState) (st : String × String) :
    (mergeEdgeRow rel g st).nodes = g.nodes := by
  unfold mergeEdgeRow
  split
  · split <;> rfl
  · rfl

theorem mergeEdgeRow_edges_mono (rel : String) (g : GraphState) (st : String × String)
    {e : String × String × String} (h : e ∈ g.edges) : e ∈ (mergeEdgeRow rel g st).edges := by
  unfold mergeEdgeRow
  split
  · split
    · exact h
    · exact List.mem_append_left _ h
  · exact h

theorem mergeEdgeRow_edges_self (rel : String) (g : GraphState) (st : String × String)
    (h1 : st.1 ∈ nodeIds g) (h2 : st.2 ∈ nodeIds g) :
    (st.1, rel, st.2) ∈ (mergeEdgeRow rel g st).edges := by
  unfold mergeEdgeRow
  rw [if_pos (by
    rw [Bool.and_eq_true]
    exact ⟨(graph_any_iff g st.1).mpr h1, (graph_any_iff g st.2).mpr h2⟩)]
  split
  · assumption
  · exact List.mem_append_right _ (by simp)

theorem foldl_mergeEdgeRow_nodes (rel : String) (l : List (String × String)) (g : GraphState) :
    (l.foldl (mergeEdgeRow rel) g).nodes = g.nodes := by
  induction l generalizing g with
  | nil => rfl
  | cons x xs ih =>
    rw [List.foldl_cons, ih]
    exact mergeEdgeRow_nodes rel g x

theorem foldl_mergeEdgeRow_edges_mono (rel : String) (l : List (String × String))
    (g : GraphState) {e : String × String × String} (h : e ∈ g.edges) :
    e ∈ (l.foldl (mergeEdgeRow rel) g).edges := by
  induction l generalizing g with
  | nil => exact h
  | cons x xs ih =>
    rw [List.foldl_cons]
    exact ih _ (mergeEdgeRow_edges_mono rel g x h)

theorem foldl_mergeEdgeRow_covers (rel : String) (l : List (String × String)) (g : GraphState) :
    ∀ st ∈ l, st.1 ∈ nodeIds g → st.2 ∈ nodeIds g →
      (st.1, rel, st.2) ∈ (l.foldl (mergeEdgeRow rel) g).edges := by
  induction l generalizing g with
  | nil => intro st hst; cases hst
  | cons x xs ih =>
    intro st hst h1 h2
    rw [List.foldl_cons]
    rcases List.mem_cons.mp hst with rfl | hmem
    · exact foldl_mergeEdgeRow_edges_mono rel xs _ (mergeEdgeRow_edges_self rel g st h1 h2)
    · have hn : nodeIds (mergeEdgeRow rel g x) = nodeIds g := by
        unfold nodeIds
        rw [mergeEdgeRow_nodes]
      exact ih _ st hmem (hn ▸ h1) (hn ▸ h2)

theorem foldl_mergeEdgeRow_id (rel : String) (l : List (String × String)) (g : GraphState)
    (h : ∀ st ∈ l, st.1 ∈ nodeIds g → st.2 ∈ nodeIds g → (st.1, rel, st.2) ∈ g.edges) :
    l.foldl (mergeEdgeRow rel) g = g := by
  induction l generalizing g with
  | nil => rfl
  | cons x xs ih =>
    rw [List.foldl_cons]
    have hx : mergeEdgeRow rel g x = g := by
      unfold mergeEdgeRow
      split
      · rw [if_pos]
        rename_i hc
        rw [Bool.and_eq_true] at hc
        exact h x (by simp) ((graph_any_iff g x.1).mp hc.1) ((graph_any_iff g x.2).mp hc.2)
      · rfl
    rw [hx]
    exact ih _ (fun st hst => h st (List.mem_cons_of_mem _ hst))

theorem foldl_applyBatch_nodes (ops : List BatchOp) (g : GraphState) :
    (ops.foldl applyBatch g).nodes = g.nodes := by
  induction ops generalizing g with
  | nil => rfl
  | cons op rest ih =>
    rw [List.foldl_cons, ih]
    exact foldl_mergeEdgeRow_nodes op.relType op.batch g

theorem foldl_applyBatch_edges_mono (ops : List BatchOp) (g : GraphState)
    {e : String × String × String} (h : e ∈ g.edges) :
    e ∈ (ops.foldl applyBatch g).edges := by
  induction ops generalizing g with
  | nil => exact h
  | cons op rest ih =>
    rw [List.foldl_cons]
    exact ih _ (foldl_mergeEdgeRow_edges_mono op.relType op.batch g h)

theorem foldl_applyBatch_covers (ops : List BatchOp) (g : GraphState) :
    ∀ op ∈ ops, ∀ st ∈ op.batch, st.1 ∈ nodeIds g → st.2 ∈ nodeIds g →
      (st.1, op.relType, st.2) ∈ (ops.foldl applyBatch g).edges := by
  induction ops generalizing g with
  | nil => intro op hop; cases hop
  | cons op0 rest ih =>
    intro op hop st hst h1 h2
    rw [List.foldl_cons]
    rcases List.mem_cons.mp hop with rfl | hmem
    · exact foldl_applyBatch_edges_mono rest _
        (foldl_mergeEdgeRow_covers op.relType op.batch g st hst h1 h2)
    · have hn : nodeIds (applyBatch g op0) = nodeIds g := by
        unfold nodeIds applyBatch
        rw [foldl_mergeEdgeRow_nodes]
      exact ih _ op hmem st hst (hn ▸ h1) (hn ▸ h2)

theorem foldl_applyBatch_id (ops : List BatchOp) (g : GraphState)
    (h : ∀ op ∈ ops, ∀ st ∈ op.batch, st.1 ∈ nodeIds g → st.2 ∈ nodeIds g →
      (st.1, op.relType, st.2) ∈ g.edges) :
    ops.foldl applyBatch g = g := by
  induction ops generalizing g with
  | nil => rfl
  | cons op rest ih =>
    rw [List.foldl_cons]
    have hop : applyBatch g op = g :=
      foldl_mergeEdgeRow_id op.relType op.batch g (fun st hst => h op (by simp) st hst)
    rw [hop]
    exact ih _ (fun op' hop' => h op' (List.mem_cons_of_mem _ hop'))

theorem nodes_length_eq_of_ids {g1 g2 : GraphState} (h : nodeIds g1 = nodeIds g2) :
    g1.nodes.length = g2.nodes.length := by
  have h2 := congrArg List.length h
  simpa [nodeIds] using h2

theorem create_db_eq (st : SysState) (ns : List NodeRow) (es : List EdgeRow) :
    create_db st ns es =
      match graphNodePhase st.graph ns with
      | (g, some e) => (⟨mongoPhase st.mongo ns, g⟩, some e)
      | (g, none) => (⟨mongoPhase st.mongo ns, (edgePhaseOps es).foldl applyBatch g⟩, none) :=
  rfl

/-- C9: the load is idempotent in store sizes — for every node and edge
input and every starting state, running `create_db` twice in succession
leaves the mirror-store document count, the graph-store node count and the
graph-store edge count equal to those after a single run (node upserts
converge by id, edge merges add no duplicate `(source, type, target)`
triple, and a load aborted by an invalid kind aborts at the same row on the
re-run). -/
theorem load_idempotent_counts (s0 : SysState) (ns : List NodeRow) (es : List EdgeRow) :
    (create_db (create_db s0 ns es).1 ns es).1.mongo.length =
      (create_db s0 ns es).1.mongo.length ∧
    (create_db (create_db s0 ns es).1 ns es).1.graph.nodes.length =
      (create_db s0 ns es).1.graph.nodes.length ∧
    (create_db (create_db s0 ns es).1 ns es).1.graph.edges.length =
      (create_db s0 ns es).1.graph.edges.length := by
  rcases hE : graphNodePhase s0.graph ns with ⟨gn1, e1⟩
  have hcover1 : ∀ r ∈ ns.takeWhile (fun r => validKind r.kind), r.id ∈ nodeIds gn1 := by
    intro r hr
    have hc := graphNodePhase_ids_cover ns s0.graph r hr
    rw [hE] at hc
    exact hc
  cases e1 with
  | some e =>
    have h1 : (create_db s0 ns es).1 = ⟨mongoPhase s0.mongo ns, gn1⟩ := by
      rw [create_db_eq, hE]
    rcases hF : graphNodePhase gn1 ns with ⟨gn2, e2⟩
    have he2 : e2 = some e := by
      have hc := graphNodePhase_err_const ns gn1 s0.graph
      rw [hE, hF] at hc
      exact hc
    subst he2
    have h2 : (create_db (create_db s0 ns es).1 ns es).1 =
        ⟨mongoPhase (mongoPhase s0.mongo ns) ns, gn2⟩ := by
      rw [h1, create_db_eq]
      show (match graphNodePhase gn1 ns with
        | (g, some e) => ((⟨mongoPhase (mongoPhase s0.mongo ns) ns, g⟩ : SysState), some e)
        | (g, none) => (⟨mongoPhase (mongoPhase s0.mongo ns) ns,
            (edgePhaseOps es).foldl applyBatch g⟩, none)).1 = _
      rw [hF]
    rw [h2, h1]
    have hids : nodeIds gn2 = nodeIds gn1 := by
      have hc := graphNodePhase_ids_of_covered ns gn1 hcover1
      rw [hF] at hc
      exact hc
    refine ⟨mongoPhase_length_idem ns s0.mongo, nodes_length_eq_of_ids hids, ?_⟩
    have hed : gn2.edges = gn1.edges := by
      have hc := graphNodePhase_edges ns gn1
      rw [hF] at hc
      exact hc
    rw [hed]
  | none =>
    have h1 : (create_db s0 ns es).1 =
        ⟨mongoPhase s0.mongo ns, (edgePhaseOps es).foldl applyBatch gn1⟩ := by
      rw [create_db_eq, hE]
    set ops := edgePhaseOps es with hops
    set gE1 := ops.foldl applyBatch gn1 with hgE1
    have hidsE1 : nodeIds gE1 = nodeIds gn1 := by
      unfold nodeIds
      rw [hgE1, foldl_applyBatch_nodes]
    rcases hF : graphNodePhase gE1 ns with ⟨gn2, e2⟩
    have he2 : e2 = none := by
      have hc := graphNodePhase_err_const ns gE1 s0.graph
      rw [hE, hF] at hc
      exact hc
    subst he2
    have h2 : (create_db (create_db s0 ns es).1 ns es).1 =
        ⟨mongoPhase (mongoPhase s0.mongo ns) ns, ops.foldl applyBatch gn2⟩ := by
      rw [h1, create_db_eq]
      show (match graphNodePhase gE1 ns with
        | (g, some e) => ((⟨mongoPhase (mongoPhase s0.mongo ns) ns, g⟩ : SysState), some e)
        | (g, none) => (⟨mongoPhase (mongoPhase s0.mongo ns) ns,
            ops.foldl applyBatch g⟩, none)).1 = _
      rw [hF]
    have hids2 : nodeIds gn2 = nodeIds gn1 := by
      have hc := graphNodePhase_ids_of_covered ns gE1 (fun r hr => hidsE1 ▸ hcover1 r hr)
      rw [hF] at hc
      rw [hc]
      exact hidsE1
    have hed2 : gn2.edges = gE1.edges := by
      have hc := graphNodePhase_edges ns gE1
      rw [hF] at hc
      exact hc
    have hfix : ops.foldl applyBatch gn2 = gn2 := by
      apply foldl_applyBatch_id
      intro op hop st hst hs1 hs2
      rw [hed2, hgE1]
      exact foldl_applyBatch_covers ops gn1 op hop st hst
        (by rw [← hids2]; exact hs1) (by rw [← hids2]; exact hs2)
    rw [h2, h1, hfix]
    refine ⟨mongoPhase_length_idem ns s0.mongo, nodes_length_eq_of_ids ?_, ?_⟩
    · rw [hids2, hidsE1]
    · rw [hed2]

end Hetionet
